import Mathlib

/-!
Verification of the file-explorer repository.

The client (`src/main.ts`) and the Express directory-listing endpoint
(`server.js`) are shallowly embedded here.  JavaScript strings are
modelled as `List Char`; the DOM tree and list views as inductive
structures; `fetch`, the filesystem and locale date formatting as
oracles, with every network or filesystem call recorded in an explicit
log so that claims about which calls happen can be stated.
-/

namespace FileExplorer

/-- JavaScript strings are modelled as lists of characters. -/
abbrev JSString := List Char

deriving instance DecidableEq for Except

/-- The root path `'/'`. -/
def rootPath : JSString := ['/']

/-- Model of JS `str.split('/')`: split on the character `'/'`, keeping
empty pieces (`''.split('/')` is `['']`, `'/a'.split('/')` is `['', 'a']`). -/
def splitSlash : JSString → List JSString
  | [] => [[]]
  | c :: cs =>
    if c = '/' then [] :: splitSlash cs
    else
      match splitSlash cs with
      | [] => [[c]]
      | p :: ps => (c :: p) :: ps

/-- Model of JS `s.startsWith(pre)`. -/
def startsWith : JSString → JSString → Bool
  | _, [] => true
  | [], _ :: _ => false
  | c :: s, d :: p => c = d && startsWith s p

/-- Model of JS `parts.join('/')` on an array of strings. -/
def joinSlash : List JSString → JSString
  | [] => []
  | [s] => s
  | s :: s' :: ss => s ++ '/' :: joinSlash (s' :: ss)

/-- Decimal rendering of a natural number, the model of JS number
to-string conversion for nonnegative integers. -/
def natToChars (n : Nat) : JSString := Nat.toDigits 10 n

/-- `buildPath` from `src/main.ts`:
`parentPath === '/' ? `/${name}` : `${parentPath}/${name}``. -/
def buildPath (name parentPath : JSString) : JSString :=
  if parentPath = rootPath then '/' :: name else parentPath ++ '/' :: name

/-- `getParentPath` from `src/main.ts`: split on `'/'`, drop empty parts
(`filter(Boolean)`), `pop()` the last part and re-join. -/
def getParentPath (path : JSString) : JSString :=
  if path = rootPath ∨ path = [] then rootPath
  else
    let parts := (splitSlash path).filter (fun s => !s.isEmpty)
    let parts := parts.dropLast
    if parts = [] then rootPath else '/' :: joinSlash parts

/-- Floor of the base-1024 logarithm of `n` (`0` for `n < 1024`).  This is
the exact value of `Math.floor(Math.log(size) / Math.log(1024))` in
`formatSize` for every positive integer `size`: the double-precision
computation agrees with the exact real logarithm everywhere (the only
candidates for disagreement are the exact powers of 1024, where the
IEEE-754 quotient is exact). -/
def floorLog1024 (n : Nat) : Nat :=
  if h : n < 1024 then 0 else floorLog1024 (n / 1024) + 1
termination_by n
decreasing_by exact Nat.div_lt_self (by omega) (by omega)

/-- Model of JS `(num / den).toFixed(digits)` for `digits ∈ {0, 1}` and
positive `den`, computed on the exact rational `num / den`: `toFixed`
rounds to the nearest multiple of `10 ^ (-digits)`, ties away from zero,
which for nonnegative values is `⌊num * 10^digits / den + 1/2⌋` tenths.
(For the sizes the claims quantify over, the double-precision quotient
in the source is exact, so exact-rational rounding is faithful there.) -/
def toFixedChars (num den digits : Nat) : JSString :=
  let scaled := (2 * num * 10 ^ digits + den) / (2 * den)
  if digits = 0 then natToChars scaled
  else natToChars (scaled / 10) ++ '.' :: natToChars (scaled % 10)

/-- `formatSize` from `src/main.ts`:
`units = ['B','KB','MB','GB']`;
`index = size === 0 ? 0 : min(floor(log size / log 1024), units.length - 1)`;
the result is `(size / 1024^index).toFixed(index ? 1 : 0)` followed by
`units[index]`. -/
def formatSize (size : Nat) : JSString :=
  let units : List JSString := [['B'], ['K', 'B'], ['M', 'B'], ['G', 'B']]
  let index := if size = 0 then 0 else min (floorLog1024 size) (units.length - 1)
  toFixedChars size (1024 ^ index) (if index = 0 then 0 else 1) ++ units.getD index []

/-! ## Server: the `GET /api/files/*` handler of `server.js` -/

/-- `'file' | 'folder'`, used both by the endpoint's JSON and the client. -/
inductive NodeType where
  | file
  | folder
deriving DecidableEq

/-- Result of a successful `fs.stat`. -/
structure Stats where
  isDirectory : Bool
  mtimeMs : Int
  size : Nat
deriving DecidableEq

/-- The server filesystem oracle: `fs.promises.stat` and
`fs.promises.readdir`, each either fulfilling or rejecting. -/
structure ServerFS where
  stat : JSString → Except Unit Stats
  readdir : JSString → Except Unit (List JSString)

/-- One entry of the JSON array the endpoint returns.  The `children`
field is present (as the empty array) exactly for folders; the handler
never puts anything in it, so its element type never matters. -/
structure DirEntry where
  type : NodeType
  name : JSString
  modified : Int
  size : Nat
  children : Option (List Unit)
deriving DecidableEq

/-- A response body: either `{ error: ... }` or the JSON array of entries. -/
inductive ResBody where
  | error (message : String)
  | items (entries : List DirEntry)
deriving DecidableEq

/-- An HTTP response as produced by `res.status(...).json(...)`. -/
structure Response where
  status : Nat
  body : ResBody
deriving DecidableEq

/-- A filesystem call performed by the handler. -/
inductive FsCall where
  | stat (path : JSString)
  | readdir (path : JSString)
deriving DecidableEq

/-- Node `path.posix.join(a, b)` for absolute `a` (the server joins
`__dirname` with the request path): concatenate with a `'/'` separator,
then normalize — empty and `'.'` segments are dropped, `'..'` pops the
previous segment and disappears at the root.  Trailing-slash
preservation is not modelled; it affects neither the prefix check nor
which filesystem paths are touched. -/
def pathJoin (a b : JSString) : JSString :=
  let segs := splitSlash (a ++ '/' :: b)
  let stack := segs.foldl
    (fun (stack : List JSString) seg =>
      if seg = [] ∨ seg = ['.'] then stack
      else if seg = ['.', '.'] then stack.dropLast
      else stack ++ [seg]) []
  '/' :: joinSlash stack

/-- The JSON object built for one directory child from its stat result. -/
def mkDirEntry (name : JSString) (st : Stats) : DirEntry :=
  { type := if st.isDirectory then .folder else .file
    name := name
    modified := st.mtimeMs
    size := st.size
    children := if st.isDirectory then some [] else none }

/-- `Promise.all(contents.map(...))` over the child stat calls: fulfils
with the entry list when every stat fulfils, rejects when any rejects. -/
def statEntries (fs : ServerFS) (fullPath : JSString) :
    List JSString → Except Unit (List DirEntry)
  | [] => .ok []
  | n :: ns =>
    match fs.stat (pathJoin fullPath n), statEntries fs fullPath ns with
    | .ok st, .ok rest => .ok (mkDirEntry n st :: rest)
    | .error _, _ => .error ()
    | .ok _, .error _ => .error ()

/-- The `GET /api/files/*` handler from `server.js`, with `__dirname`,
the filesystem and the wildcard request path as parameters.  Returns the
response together with the list of filesystem calls performed. -/
def listDirHandler (dirname : JSString) (fs : ServerFS) (requestedPath : JSString) :
    Response × List FsCall :=
  let fullPath := pathJoin dirname requestedPath
  if !startsWith fullPath dirname then
    ({ status := 403, body := .error "Access denied" }, [])
  else
    match fs.stat fullPath with
    | .error _ =>
      ({ status := 500, body := .error "Internal server error" }, [.stat fullPath])
    | .ok stats =>
      if !stats.isDirectory then
        ({ status := 400, body := .error "Not a directory" }, [.stat fullPath])
      else
        match fs.readdir fullPath with
        | .error _ =>
          ({ status := 500, body := .error "Internal server error" },
            [.stat fullPath, .readdir fullPath])
        | .ok names =>
          let calls := FsCall.stat fullPath :: FsCall.readdir fullPath ::
            names.map (fun n => FsCall.stat (pathJoin fullPath n))
          match statEntries fs fullPath names with
          | .error _ =>
            ({ status := 500, body := .error "Internal server error" }, calls)
          | .ok items => ({ status := 200, body := .items items }, calls)

/-! ## Client: state, DOM models and operations of `src/main.ts` -/

/-- `ITreeNode` from `src/main.ts`: one item of a listing response.  The
`modified` date is kept as its epoch timestamp and rendered through the
locale oracle. -/
structure ITreeNode where
  type : NodeType
  name : JSString
  modified : Nat
  size : Option Nat
deriving DecidableEq

/-- A rendered node of the tree view.  `openCls` models the `open` class
(set in lock-step on the node and its icon); folder nodes carry the
contents of their `tree-children` container, file nodes have none. -/
inductive TreeItem where
  | file (path : JSString) (openCls selected : Bool)
  | folder (path : JSString) (openCls selected : Bool) (children : List TreeItem)

/-- The `data-path` attribute of a tree node. -/
def pathOf : TreeItem → JSString
  | .file p _ _ => p
  | .folder p _ _ _ => p

/-- `classList.toggle('open', b)` on a tree node and its icon. -/
def setOpenCls (b : Bool) : TreeItem → TreeItem
  | .file p _ sel => .file p b sel
  | .folder p _ sel cs => .folder p b sel cs

/-- Replace the contents of a folder's `tree-children` container
(no effect on file nodes, which have no container). -/
def setChildren (cs : List TreeItem) : TreeItem → TreeItem
  | .file p o sel => .file p o sel
  | .folder p o sel _ => .folder p o sel cs

/-- `classList.add/remove('selected')` on a tree node. -/
def setTreeSelected (b : Bool) : TreeItem → TreeItem
  | .file p o _ => .file p o b
  | .folder p o _ cs => .folder p o b cs

/-- A row of the list view, as built by `createListRow`: the name cell's
icon and text, the two text cells, the click handler's target path
(`none` for file rows, which get no handler) and the `selected` class. -/
structure ListRow where
  iconType : NodeType
  iconOpen : Bool
  name : JSString
  modifiedText : JSString
  sizeText : JSString
  clickTarget : Option JSString
  selected : Bool
deriving DecidableEq

/-- `ExplorerState` from `src/main.ts`.  The `Set` of expanded folders is
kept in insertion order as a duplicate-free list; the two `HTMLElement`
references hold the rendered children of the tree and list views. -/
structure ExplorerState where
  expandedFolders : List JSString
  currentPath : JSString
  treeView : List TreeItem
  listView : List ListRow

/-- The environment of the client: the listing endpoint's response for
each path (`fetchFolderContents`, already parsed), and
`Date.toLocaleString` for timestamps. -/
structure Ctx where
  fetchData : JSString → List ITreeNode
  locale : Nat → JSString

/-- `createInitialState`: root expanded, current path `'/'`, empty views. -/
def createInitialState : ExplorerState :=
  { expandedFolders := [rootPath]
    currentPath := rootPath
    treeView := []
    listView := [] }

/-- JS `Set.add`: append if not yet present. -/
def setAdd (s : List JSString) (x : JSString) : List JSString :=
  if s.contains x then s else s ++ [x]

/-- `removeExpandedFolder` from `src/main.ts`: delete every expanded path
equal to `path` or starting with `path + '/'`. -/
def removeExpandedFolder (st : ExplorerState) (path : JSString) : ExplorerState :=
  { st with expandedFolders :=
      st.expandedFolders.filter (fun q => !(q == path || startsWith q (path ++ ['/']))) }

/-- The list row built for one listing item inside `updateListView`:
folder icon open iff the item's path is currently expanded, locale
date text, size text only for files, click handler only for folders. -/
def listRowOfItem (ctx : Ctx) (st : ExplorerState) (item : ITreeNode) : ListRow :=
  { iconType := item.type
    iconOpen := item.type = NodeType.folder &&
      st.expandedFolders.contains (buildPath item.name st.currentPath)
    name := item.name
    modifiedText := ctx.locale item.modified
    sizeText := if item.type = NodeType.file then formatSize (item.size.getD 0) else ['-', '-']
    clickTarget :=
      if item.type = NodeType.folder then some (buildPath item.name st.currentPath) else none
    selected := false }

/-- The synthetic `'...'` parent-navigation row of `updateListView`. -/
def parentNavRow (st : ExplorerState) : ListRow :=
  { iconType := NodeType.folder
    iconOpen := false
    name := ['.', '.', '.']
    modifiedText := ['-', '-']
    sizeText := ['-', '-']
    clickTarget := some (getParentPath st.currentPath)
    selected := false }

/-- `updateListView` from `src/main.ts`: rebuild the list view from the
listing data, preceded by the parent row when not at the root. -/
def updateListView (ctx : Ctx) (st : ExplorerState) (data : List ITreeNode) : ExplorerState :=
  { st with listView :=
      (if st.currentPath ≠ rootPath then [parentNavRow st] else []) ++
      data.map (listRowOfItem ctx st) }

/-- The tree node built for one listing item inside `updateTreeView`:
folders get an (initially empty) child container, files none. -/
def treeItemOfNode (item : ITreeNode) (parentPath : JSString) : TreeItem :=
  match item.type with
  | .folder => .folder (buildPath item.name parentPath) false false []
  | .file => .file (buildPath item.name parentPath) false false

/-- The recursive body of `updateTreeView`: render the data items into a
(previously empty) child container under `parentPath`. -/
def renderTreeChildren (data : List ITreeNode) (parentPath : JSString) : List TreeItem :=
  data.map (fun item => treeItemOfNode item parentPath)

/-- `updateTreeView` at `level = 0`: reset the tree view to the single
always-open root folder (`data-path` `'/'`) holding the rendered items. -/
def updateTreeViewRoot (st : ExplorerState) (data : List ITreeNode) : ExplorerState :=
  { st with treeView := [.folder rootPath true false (renderTreeChildren data rootPath)] }

mutual

/-- `querySelector('[data-path="..."]')` over a node list: first match in
document (depth-first) order. -/
def findTreeItem : List TreeItem → JSString → Option TreeItem
  | [], _ => none
  | t :: ts, p =>
    match findTreeItemIn t p with
    | some r => some r
    | none => findTreeItem ts p

/-- First `data-path` match in the subtree rooted at one node. -/
def findTreeItemIn (t : TreeItem) (p : JSString) : Option TreeItem :=
  if pathOf t = p then some t
  else
    match t with
    | .file _ _ _ => none
    | .folder _ _ _ cs => findTreeItem cs p

end

mutual

/-- Apply `f` to the first `data-path` match in a node list (the DOM
mutation performed on a `querySelector` result); the flag reports
whether a match was found. -/
def replaceTreeItems : List TreeItem → JSString → (TreeItem → TreeItem) → List TreeItem × Bool
  | [], _, _ => ([], false)
  | t :: ts, p, f =>
    let r := replaceTreeItemIn t p f
    if r.2 then (r.1 :: ts, true)
    else
      let rs := replaceTreeItems ts p f
      (t :: rs.1, rs.2)

/-- Apply `f` to the first `data-path` match inside one node's subtree. -/
def replaceTreeItemIn (t : TreeItem) (p : JSString) (f : TreeItem → TreeItem) :
    TreeItem × Bool :=
  if pathOf t = p then (f t, true)
  else
    match t with
    | .file _ _ _ => (t, false)
    | .folder q o sel cs =>
      let rs := replaceTreeItems cs p f
      (.folder q o sel rs.1, rs.2)

end

/-- `updateListViewExpansion` from `src/main.ts`: re-derive every list
row's folder-icon `open` class from the expanded set (file icons are not
folder icons and are left alone). -/
def updateListViewExpansion (st : ExplorerState) : ExplorerState :=
  { st with listView :=
      st.listView.map (fun row =>
        if row.iconType = NodeType.folder then
          { row with iconOpen := st.expandedFolders.contains (buildPath row.name st.currentPath) }
        else row) }

/-- `toggleFolderExpansion` from `src/main.ts`.  Returns the new state
and the list of paths fetched (`fetchFolderContents` calls). -/
def toggleFolderExpansion (ctx : Ctx) (st : ExplorerState) (path : JSString)
    (forceState : Option Bool) : ExplorerState × List JSString :=
  if path = rootPath then (st, [])
  else
    let isCurrentlyExpanded := st.expandedFolders.contains path
    let shouldExpand := forceState.getD (!isCurrentlyExpanded)
    let st1 :=
      if shouldExpand then { st with expandedFolders := setAdd st.expandedFolders path }
      else removeExpandedFolder st path
    match findTreeItem st1.treeView path with
    | none => (updateListViewExpansion st1, [])
    | some t =>
      match t with
      | .file _ _ _ =>
        -- a file div matching the selector: `open` class toggled, but it
        -- has no folder icon and no child container
        let st2 := { st1 with
          treeView := (replaceTreeItems st1.treeView path (setOpenCls shouldExpand)).1 }
        (updateListViewExpansion st2, [])
      | .folder _ _ _ cs =>
        if shouldExpand && cs.isEmpty then
          let children := ctx.fetchData path
          let st2 := { st1 with
            treeView := (replaceTreeItems st1.treeView path
              (fun u => setChildren (renderTreeChildren children path) (setOpenCls shouldExpand u))).1 }
          (updateListViewExpansion st2, [path])
        else if !shouldExpand then
          let st2 := { st1 with
            treeView := (replaceTreeItems st1.treeView path
              (fun u => setChildren [] (setOpenCls shouldExpand u))).1 }
          (updateListViewExpansion st2, [])
        else
          let st2 := { st1 with
            treeView := (replaceTreeItems st1.treeView path (setOpenCls shouldExpand)).1 }
          (updateListViewExpansion st2, [])

mutual

/-- Clear the `selected` class on every tree node
(`querySelectorAll('.tree-item.selected')`). -/
def clearTreeSelection : List TreeItem → List TreeItem
  | [] => []
  | t :: ts => clearTreeSelectionIn t :: clearTreeSelection ts

/-- Clear the `selected` class in one node's subtree. -/
def clearTreeSelectionIn : TreeItem → TreeItem
  | .file p o _ => .file p o false
  | .folder p o _ cs => .folder p o false (clearTreeSelection cs)

end

/-- `updateSelection` from `src/main.ts`: clear all `selected` classes,
select the tree node whose `data-path` is `path`, and select every list
row whose name equals the last `'/'`-separated component of `path`. -/
def updateSelection (st : ExplorerState) (path : JSString) : ExplorerState :=
  let fileName := (splitSlash path).getLastD []
  { st with
    treeView := (replaceTreeItems (clearTreeSelection st.treeView) path (setTreeSelected true)).1
    listView := st.listView.map (fun row =>
      let row := { row with selected := false }
      if row.name = fileName then { row with selected := true } else row) }

/-- The loop of `expandTreeToPath`, walking the non-empty components and
force-expanding each accumulated path. -/
def expandTreeToPathAux (ctx : Ctx) (st : ExplorerState) :
    List JSString → JSString → ExplorerState × List JSString
  | [], _ => (st, [])
  | part :: rest, currentPath =>
    let cur := buildPath part currentPath
    let r1 := toggleFolderExpansion ctx st cur (some true)
    let r2 := expandTreeToPathAux ctx r1.1 rest cur
    (r2.1, r1.2 ++ r2.2)

/-- `expandTreeToPath` from `src/main.ts`. -/
def expandTreeToPath (ctx : Ctx) (st : ExplorerState) (path : JSString) :
    ExplorerState × List JSString :=
  expandTreeToPathAux ctx st ((splitSlash path).filter (fun s => !s.isEmpty)) []

/-- The two click sources. -/
inductive Source where
  | tree
  | list
deriving DecidableEq

/-- `handleFolderSelect` from `src/main.ts`.  Returns the new state and
the list of fetched paths. -/
def handleFolderSelect (ctx : Ctx) (st : ExplorerState) (path : JSString) (source : Source) :
    ExplorerState × List JSString :=
  let previousPath := st.currentPath
  let isSamePath := previousPath = path
  let st1 := { st with currentPath := path }
  let r1 :=
    if source = Source.tree ∨ ¬isSamePath then
      (updateListView ctx st1 (ctx.fetchData path), [path])
    else (st1, [])
  let r2 := if source = Source.list then expandTreeToPath ctx r1.1 path else (r1.1, [])
  let r3 :=
    if source = Source.tree ∨ isSamePath then toggleFolderExpansion ctx r2.1 path none
    else (r2.1, [])
  (updateSelection r3.1 path, r1.2 ++ r2.2 ++ r3.2)

/-- `init` from `createFileExplorer`: fetch the root listing and render
both views from it. -/
def init (ctx : Ctx) (st : ExplorerState) : ExplorerState × List JSString :=
  let data := ctx.fetchData rootPath
  (updateListView ctx (updateTreeViewRoot st data) data, [rootPath])

/-! ## Spec-side definitions and concrete fixtures -/

/-- An absolute path in canonical form, as the claims describe one: the
root `'/'`, or `'/'` followed by one or more non-empty slash-free
segments joined by `'/'`. -/
def IsCanonicalDir (p : JSString) : Prop :=
  p = rootPath ∨ ∃ segs : List JSString,
    segs ≠ [] ∧ (∀ s ∈ segs, s ≠ [] ∧ '/' ∉ s) ∧ p = '/' :: joinSlash segs

/-- Modelled from the claim's words: a path is inside a directory when it
is the directory itself or lies strictly below it (extends it past a
`'/'` separator). -/
def insideDir (p dir : JSString) : Prop :=
  p = dir ∨ startsWith p (dir ++ ['/']) = true

instance (p dir : JSString) : Decidable (insideDir p dir) := by
  unfold insideDir; infer_instance

/-- The `'/'`-prefixed ancestors of the canonical path
`'/' :: joinSlash segs`, the path itself included: one for each
non-empty prefix of `segs`. -/
def ancestorsOf (segs : List JSString) : List JSString :=
  (List.range segs.length).map (fun i => '/' :: joinSlash (segs.take (i + 1)))

/-- Whether a `querySelector` result is a folder node with an existing
empty child container. -/
def isEmptyFolderNode : Option TreeItem → Bool
  | some (.folder _ _ _ []) => true
  | _ => false

/-- Whether a `querySelector` result is a folder node (and hence has a
child container). -/
def isFolderNode : Option TreeItem → Bool
  | some (.folder _ _ _ _) => true
  | _ => false

/-- The directory path written for a consumed list of segments: `''`
when none are consumed yet (the loop's initial accumulator), else `'/'`
followed by the `'/'`-joined list. -/
def dirOf : List JSString → JSString
  | [] => []
  | xs => '/' :: joinSlash xs

/-- A path as the UI ever feeds one to `handleFolderSelect`: the root
(tree root click), a `buildPath` product (tree or list item click), or a
`getParentPath` result (the `'...'` row). -/
def UIPath (path : JSString) : Prop :=
  path = rootPath ∨ (∃ n pp, path = buildPath n pp) ∨ ∃ q, path = getParentPath q

/-- States reachable through the public operations, starting from
`createInitialState`, with paths as the UI produces them
(`toggleFolderExpansion` is reached with `buildPath` products only). -/
inductive Reachable (ctx : Ctx) : ExplorerState → Prop where
  | initial : Reachable ctx createInitialState
  | do_init (st : ExplorerState) (h : Reachable ctx st) : Reachable ctx (init ctx st).1
  | select (st : ExplorerState) (path : JSString) (source : Source)
      (h : Reachable ctx st) (hpath : UIPath path) :
      Reachable ctx (handleFolderSelect ctx st path source).1
  | toggle (st : ExplorerState) (name parent : JSString) (force : Option Bool)
      (h : Reachable ctx st) :
      Reachable ctx (toggleFolderExpansion ctx st (buildPath name parent) force).1

/-- A filesystem on which the prefix check lets a request escape the
server directory: `/app-evil` is a sibling of the `/app` server
directory and exists as an empty directory. -/
def fsEscape : ServerFS :=
  { stat := fun p =>
      if p = "/app-evil".data then .ok { isDirectory := true, mtimeMs := 7, size := 4096 }
      else .error ()
    readdir := fun p => if p = "/app-evil".data then .ok [] else .error () }

/-- A filesystem where `/srv/d` is a directory whose single child's stat
rejects. -/
def fsChildErr : ServerFS :=
  { stat := fun p =>
      if p = "/srv/d".data then .ok { isDirectory := true, mtimeMs := 5, size := 4096 }
      else .error ()
    readdir := fun p => if p = "/srv/d".data then .ok [['x']] else .error () }

/-- A filesystem with a two-child directory `/srv/d` (a subfolder and a
file) and a plain file `/srv/f`. -/
def fsDemo : ServerFS :=
  { stat := fun p =>
      if p = "/srv/d".data then .ok { isDirectory := true, mtimeMs := 5, size := 4096 }
      else if p = "/srv/d/sub".data then .ok { isDirectory := true, mtimeMs := 6, size := 4096 }
      else if p = "/srv/d/a.txt".data then .ok { isDirectory := false, mtimeMs := 9, size := 500 }
      else if p = "/srv/f".data then .ok { isDirectory := false, mtimeMs := 3, size := 10 }
      else .error ()
    readdir := fun p =>
      if p = "/srv/d".data then .ok ["sub".data, "a.txt".data] else .error () }

/-- A client environment whose listing endpoint always returns an empty
directory. -/
def ctxEmpty : Ctx :=
  { fetchData := fun _ => []
    locale := fun _ => [] }

/-- A client state with one collapsed, unloaded folder `/a` in the tree. -/
def stOneFolder : ExplorerState :=
  { expandedFolders := [rootPath]
    currentPath := rootPath
    treeView := [.folder rootPath true false [.folder "/a".data false false []]]
    listView := [] }

/-! ## Lemmas about the string model -/

lemma splitSlash_ne_nil (s : JSString) : splitSlash s ≠ [] := by
  cases s with
  | nil => simp [splitSlash]
  | cons c cs =>
    simp only [splitSlash]
    split
    · simp
    · split <;> simp

lemma splitSlash_of_no_slash (s : JSString) (h : '/' ∉ s) : splitSlash s = [s] := by
  induction s with
  | nil => rfl
  | cons c cs ih =>
    have hc : ¬ c = '/' := by intro e; exact h (e ▸ List.mem_cons_self c cs)
    have hcs : '/' ∉ cs := fun m => h (List.mem_cons_of_mem c m)
    simp only [splitSlash, if_neg hc, ih hcs]

lemma splitSlash_append_slash (a b : JSString) (h : '/' ∉ a) :
    splitSlash (a ++ '/' :: b) = a :: splitSlash b := by
  induction a with
  | nil => simp [splitSlash]
  | cons c cs ih =>
    have hc : ¬ c = '/' := by intro e; exact h (e ▸ List.mem_cons_self c cs)
    have hcs : '/' ∉ cs := fun m => h (List.mem_cons_of_mem c m)
    rw [List.cons_append]
    simp only [splitSlash, if_neg hc]
    rw [ih hcs]

lemma splitSlash_joinSlash_append (segs : List JSString) (name : JSString)
    (hsegs : ∀ s ∈ segs, '/' ∉ s) (hne : segs ≠ []) :
    splitSlash (joinSlash segs ++ '/' :: name) = segs ++ splitSlash name := by
  induction segs with
  | nil => exact absurd rfl hne
  | cons s ss ih =>
    cases ss with
    | nil =>
      have hs : '/' ∉ s := hsegs s (List.mem_cons_self s [])
      simp [joinSlash, splitSlash_append_slash s name hs]
    | cons s2 ss2 =>
      have hs : '/' ∉ s := hsegs s (List.mem_cons_self s _)
      have hrest : ∀ x ∈ s2 :: ss2, '/' ∉ x := fun x hx => hsegs x (List.mem_cons_of_mem s hx)
      have hstep : joinSlash (s :: s2 :: ss2) ++ '/' :: name
          = s ++ '/' :: (joinSlash (s2 :: ss2) ++ '/' :: name) := by
        simp [joinSlash]
      rw [hstep, splitSlash_append_slash s _ hs, ih hrest (by simp)]
      simp

lemma joinSlash_ne_nil (segs : List JSString) (hne : segs ≠ [])
    (h : ∀ s ∈ segs, s ≠ []) : joinSlash segs ≠ [] := by
  cases segs with
  | nil => exact absurd rfl hne
  | cons s ss =>
    cases ss with
    | nil => exact h s (List.mem_cons_self s [])
    | cons s2 ss2 =>
      have hj : joinSlash (s :: s2 :: ss2) = s ++ '/' :: joinSlash (s2 :: ss2) := by
        simp [joinSlash]
      rw [hj]
      intro e
      exact List.cons_ne_nil _ _ (List.append_eq_nil.mp e).2

lemma filter_nonempty_eq_self (l : List JSString) (h : ∀ s ∈ l, s ≠ []) :
    l.filter (fun s => !s.isEmpty) = l := by
  induction l with
  | nil => rfl
  | cons a as ih =>
    have ha : a ≠ [] := h a (List.mem_cons_self a as)
    have has : ∀ s ∈ as, s ≠ [] := fun s hs => h s (List.mem_cons_of_mem a hs)
    cases a with
    | nil => exact absurd rfl ha
    | cons c cs => simp [List.filter, ih has]

/-! ## C3: getParentPath is a left inverse of buildPath -/

/-- C3: for every non-empty slash-free name and every parent path that is
`'/'` or `'/'` followed by one or more non-empty `'/'`-separated
segments, `getParentPath (buildPath name parentPath) = parentPath`. -/
theorem c3_getParentPath_buildPath (name parentPath : JSString)
    (hn : name ≠ []) (hns : '/' ∉ name) (hp : IsCanonicalDir parentPath) :
    getParentPath (buildPath name parentPath) = parentPath := by
  cases hp with
  | inl h =>
    subst h
    have hb : buildPath name rootPath = '/' :: name := by simp [buildPath]
    rw [hb]
    have hcond : ¬('/' :: name = rootPath ∨ '/' :: name = []) := by
      push_neg
      refine ⟨?_, by simp⟩
      intro e
      have hnil : name = [] := by
        have := congrArg List.tail e
        simpa [rootPath] using this
      exact hn hnil
    unfold getParentPath
    rw [if_neg hcond]
    have h1 : splitSlash ('/' :: name) = [] :: [name] := by
      simp [splitSlash, splitSlash_of_no_slash name hns]
    rw [h1]
    have h2 : ([] :: [name]).filter (fun s : JSString => !s.isEmpty) = [name] := by
      cases name with
      | nil => exact absurd rfl hn
      | cons c cs => simp [List.filter]
    simp only [h2]
    simp
  | inr h =>
    obtain ⟨segs, hsne, hprops, rfl⟩ := h
    have hjoin_ne : joinSlash segs ≠ [] :=
      joinSlash_ne_nil segs hsne (fun s hs => (hprops s hs).1)
    have hnotroot : ¬('/' :: joinSlash segs = rootPath) := by
      intro e
      have hnil : joinSlash segs = [] := by
        have := congrArg List.tail e
        simpa [rootPath] using this
      exact hjoin_ne hnil
    have hb : buildPath name ('/' :: joinSlash segs)
        = '/' :: (joinSlash segs ++ '/' :: name) := by
      simp [buildPath, hnotroot]
    rw [hb]
    have hcond : ¬('/' :: (joinSlash segs ++ '/' :: name) = rootPath
        ∨ '/' :: (joinSlash segs ++ '/' :: name) = []) := by
      push_neg
      constructor
      · intro e
        have htl := congrArg List.tail e
        simp [rootPath] at htl
      · simp
    unfold getParentPath
    rw [if_neg hcond]
    have h1 : splitSlash ('/' :: (joinSlash segs ++ '/' :: name))
        = [] :: (segs ++ [name]) := by
      simp [splitSlash, splitSlash_joinSlash_append segs name
        (fun s hs => (hprops s hs).2) hsne, splitSlash_of_no_slash name hns]
    rw [h1]
    have h2 : (([] : JSString) :: (segs ++ [name])).filter (fun s : JSString => !s.isEmpty)
        = segs ++ [name] := by
      have hall : (segs ++ [name]).filter (fun s : JSString => !s.isEmpty) = segs ++ [name] := by
        refine filter_nonempty_eq_self _ ?_
        intro s hs
        rcases List.mem_append.mp hs with h | h
        · exact (hprops s h).1
        · simp at h; subst h; exact hn
      simp [List.filter, hall]
    simp only [h2]
    rw [List.dropLast_concat]
    simp [if_neg hsne, hsne]

/-- C3 witness: a concrete instance,
`getParentPath (buildPath "sub" "/a/b") = "/a/b"`. -/
theorem c3_getParentPath_buildPath_witness :
    getParentPath (buildPath "sub".data "/a/b".data) = "/a/b".data :=
  c3_getParentPath_buildPath "sub".data "/a/b".data (by decide) (by decide)
    (Or.inr ⟨[['a'], ['b']], by decide, by decide, by decide⟩)

/-! ## C8: formatSize -/

lemma floorLog1024_of_lt (n : Nat) (h : n < 1024) : floorLog1024 n = 0 := by
  unfold floorLog1024; simp [h]

lemma floorLog1024_1024 : floorLog1024 1024 = 1 := by
  unfold floorLog1024; norm_num [floorLog1024_of_lt]

lemma floorLog1024_mega : floorLog1024 1048576 = 2 := by
  unfold floorLog1024
  norm_num [floorLog1024_1024]

lemma floorLog1024_giga : floorLog1024 1073741824 = 3 := by
  unfold floorLog1024
  norm_num [floorLog1024_mega]

lemma le_floorLog1024 (n : Nat) (h : 1073741824 ≤ n) : 3 ≤ floorLog1024 n := by
  unfold floorLog1024
  rw [dif_neg (by omega)]
  unfold floorLog1024
  rw [dif_neg (by omega)]
  unfold floorLog1024
  rw [dif_neg (by omega)]
  omega

/-- C8: `formatSize` formats byte counts over units B, KB, MB, GB with a
1024 divisor: `0` gives `'0B'`; integers 1..1023 give the size followed
by `'B'` with no decimal; each power of 1024 gives `'1.0'` with the next
unit; and from `1024^3` up the unit is capped at `'GB'` (with the
one-decimal value of `size / 1024^3` in front). -/
theorem c8_formatSize_units :
    formatSize 0 = ['0', 'B'] ∧
    (∀ s : Nat, 1 ≤ s → s ≤ 1023 → formatSize s = natToChars s ++ ['B']) ∧
    formatSize 1024 = ['1', '.', '0', 'K', 'B'] ∧
    formatSize (1024 ^ 2) = ['1', '.', '0', 'M', 'B'] ∧
    formatSize (1024 ^ 3) = ['1', '.', '0', 'G', 'B'] ∧
    (∀ s : Nat, 1024 ^ 3 ≤ s →
      formatSize s = toFixedChars s (1024 ^ 3) 1 ++ ['G', 'B']) := by
  refine ⟨rfl, ?_, ?_, ?_, ?_, ?_⟩
  · intro s h1 h2
    have hz : floorLog1024 s = 0 := floorLog1024_of_lt s (by omega)
    have hs : ¬ s = 0 := by omega
    have hsc : (2 * s + 1) / 2 = s := by omega
    simp [formatSize, hz, hs, toFixedChars, hsc]
  · simp only [formatSize, floorLog1024_1024]
    rfl
  · have h2 : (1024 : Nat) ^ 2 = 1048576 := by norm_num
    rw [h2]
    simp only [formatSize, floorLog1024_mega]
    rfl
  · have h3 : (1024 : Nat) ^ 3 = 1073741824 := by norm_num
    rw [h3]
    simp only [formatSize, floorLog1024_giga]
    rfl
  · intro s h
    have h3 : (1024 : Nat) ^ 3 = 1073741824 := by norm_num
    have hmin : min (floorLog1024 s) 3 = 3 :=
      Nat.min_eq_right (le_floorLog1024 s (by omega))
    have hs : ¬ s = 0 := by
      intro e; rw [e] at h; omega
    simp only [formatSize, List.length_cons, List.length_nil, hs, if_false]
    norm_num [hmin]

/-- C8 witness: the theorem applied at 500 (plain bytes) and at
`2 * 1024^3` (unit capped at GB). -/
theorem c8_formatSize_units_witness :
    formatSize 500 = natToChars 500 ++ ['B'] ∧
    formatSize 2147483648 = toFixedChars 2147483648 (1024 ^ 3) 1 ++ ['G', 'B'] :=
  ⟨c8_formatSize_units.2.1 500 (by norm_num) (by norm_num),
   c8_formatSize_units.2.2.2.2.2 2147483648 (by norm_num)⟩

/-! ## C4: removeExpandedFolder removes exactly the subtree -/

/-- C4: after `removeExpandedFolder state p`, the expanded set contains
exactly the previous members `q` with `q ≠ p` that do not start with
`p + '/'`; in particular `/parent2` survives the removal of `/parent`. -/
theorem c4_removeExpandedFolder_frame (st : ExplorerState) (p q : JSString) :
    (q ∈ (removeExpandedFolder st p).expandedFolders ↔
      q ∈ st.expandedFolders ∧ ¬(q = p ∨ startsWith q (p ++ ['/']) = true)) ∧
    (removeExpandedFolder
        { expandedFolders := ["/parent".data, "/parent2".data]
          currentPath := rootPath
          treeView := []
          listView := [] }
        "/parent".data).expandedFolders = ["/parent2".data] := by
  constructor
  · simp [removeExpandedFolder, List.mem_filter, not_or]
  · decide

/-! ## C6: updateListView row structure -/

/-- C6: `updateListView` rebuilds the list view as one row per data
item, in order, preceded by the synthetic `'...'` parent row exactly
when the current path is not the root. -/
theorem c6_updateListView_rows (ctx : Ctx) (st : ExplorerState) (data : List ITreeNode) :
    ((updateListView ctx st data).listView.map ListRow.name
      = (if st.currentPath = rootPath then [] else [['.', '.', '.']]) ++ data.map ITreeNode.name) ∧
    (updateListView ctx st data).listView.length
      = (if st.currentPath = rootPath then 0 else 1) + data.length := by
  unfold updateListView
  by_cases h : st.currentPath = rootPath <;>
    simp [h, parentNavRow, listRowOfItem, List.map_map, Function.comp, Nat.add_comm]

/-! ## Lemmas about startsWith and the server handler -/

lemma startsWith_append_left (a b : JSString) : startsWith (a ++ b) a = true := by
  induction a with
  | nil => cases b <;> rfl
  | cons c a ih => simp [startsWith, ih]

lemma startsWith_of_append (p x y : JSString) (h : startsWith p (x ++ y) = true) :
    startsWith p x = true := by
  induction x generalizing p with
  | nil => cases p <;> rfl
  | cons c x ih =>
    cases p with
    | nil => exact absurd h (by simp [startsWith])
    | cons e p =>
      rw [List.cons_append] at h
      simp only [startsWith, Bool.and_eq_true] at h ⊢
      exact ⟨h.1, ih p h.2⟩

lemma startsWith_of_insideDir (p dir : JSString) (h : insideDir p dir) :
    startsWith p dir = true := by
  cases h with
  | inl h => subst h; simpa using startsWith_append_left p []
  | inr h => exact startsWith_of_append p dir ['/'] h

lemma statEntries_ok (fs : ServerFS) (fullPath : JSString) (names : List JSString)
    (stOf : JSString → Stats)
    (h : ∀ n ∈ names, fs.stat (pathJoin fullPath n) = .ok (stOf n)) :
    statEntries fs fullPath names = .ok (names.map (fun n => mkDirEntry n (stOf n))) := by
  induction names with
  | nil => rfl
  | cons n ns ih =>
    have hn := h n (List.mem_cons_self n ns)
    have hns := ih (fun x hx => h x (List.mem_cons_of_mem n hx))
    simp [statEntries, hn, hns]

lemma statEntries_error (fs : ServerFS) (fullPath : JSString) (names : List JSString)
    (h : ∃ n ∈ names, fs.stat (pathJoin fullPath n) = .error ()) :
    statEntries fs fullPath names = .error () := by
  induction names with
  | nil => simp at h
  | cons n ns ih =>
    rcases h with ⟨m, hm, herr⟩
    rcases List.mem_cons.mp hm with rfl | hmem
    · simp [statEntries, herr]
    · have htail := ih ⟨m, hmem, herr⟩
      simp only [statEntries, htail]
      cases fs.stat (pathJoin fullPath n) <;> rfl

/-! ## C1: the success path of the listing endpoint -/

/-- C1 counterexample: `/srv/d` resolves to a directory inside the
server directory `/srv`, but because its single child's stat rejects,
the handler answers 500 — not a JSON array with one entry per child as
the claim states. -/
theorem c1_counterexample :
    insideDir (pathJoin "/srv".data "d".data) "/srv".data ∧
    fsChildErr.stat (pathJoin "/srv".data "d".data)
      = .ok { isDirectory := true, mtimeMs := 5, size := 4096 } ∧
    (listDirHandler "/srv".data fsChildErr "d".data).1
      = { status := 500, body := .error "Internal server error" } := by
  decide

/-- C1 (amended): when the resolved path is a directory inside the
server directory **and the stat of every child fulfils**, the handler
answers 200 with a JSON array holding exactly one entry per child of the
`readdir` listing, in order; each entry's `type` is `'folder'` iff the
child's stat reports a directory, and it carries the child's name and
the stat's mtime and size. -/
theorem c1_listing_entries (dirname requestedPath : JSString) (fs : ServerFS)
    (st : Stats) (names : List JSString) (stOf : JSString → Stats)
    (hin : insideDir (pathJoin dirname requestedPath) dirname)
    (hstat : fs.stat (pathJoin dirname requestedPath) = .ok st)
    (hdir : st.isDirectory = true)
    (hread : fs.readdir (pathJoin dirname requestedPath) = .ok names)
    (hchild : ∀ n ∈ names,
      fs.stat (pathJoin (pathJoin dirname requestedPath) n) = .ok (stOf n)) :
    (listDirHandler dirname fs requestedPath).1
      = { status := 200
          body := .items (names.map (fun n => mkDirEntry n (stOf n))) } ∧
    ∀ n, (mkDirEntry n (stOf n)).name = n ∧
      ((mkDirEntry n (stOf n)).type = NodeType.folder ↔ (stOf n).isDirectory = true) ∧
      (mkDirEntry n (stOf n)).modified = (stOf n).mtimeMs ∧
      (mkDirEntry n (stOf n)).size = (stOf n).size := by
  have hsw := startsWith_of_insideDir _ _ hin
  have hentries := statEntries_ok fs (pathJoin dirname requestedPath) names stOf hchild
  constructor
  · simp only [listDirHandler, hsw, Bool.not_true, Bool.false_eq_true, if_false, hstat,
      hdir, Bool.not_false, hread, hentries]
  · intro n
    refine ⟨rfl, ?_, rfl, rfl⟩
    unfold mkDirEntry
    cases hd : (stOf n).isDirectory <;> simp [hd]

/-- C1 witness: the amended theorem applied to the concrete two-child
directory `/srv/d` of `fsDemo`. -/
theorem c1_listing_entries_witness :
    (listDirHandler "/srv".data fsDemo "d".data).1
      = { status := 200
          body := .items
            [ { type := NodeType.folder, name := "sub".data, modified := 6, size := 4096,
                children := some [] },
              { type := NodeType.file, name := "a.txt".data, modified := 9, size := 500,
                children := none } ] } :=
  (c1_listing_entries "/srv".data "d".data fsDemo
    { isDirectory := true, mtimeMs := 5, size := 4096 }
    ["sub".data, "a.txt".data]
    (fun n => if n = "sub".data then { isDirectory := true, mtimeMs := 6, size := 4096 }
      else { isDirectory := false, mtimeMs := 9, size := 500 })
    (by decide) (by decide) rfl (by decide) (by decide)).1

/-! ## C2: error handling of the listing endpoint -/

/-- C2: once the prefix guard passes — a fulfilled stat of a
non-directory gives 400 `Not a directory`; a rejecting stat, a rejecting
readdir, or any rejecting child stat gives 500 `Internal server error`. -/
theorem c2_error_handling (dirname requestedPath : JSString) (fs : ServerFS)
    (hin : startsWith (pathJoin dirname requestedPath) dirname = true) :
    (∀ st : Stats, fs.stat (pathJoin dirname requestedPath) = .ok st →
      st.isDirectory = false →
      listDirHandler dirname fs requestedPath
        = ({ status := 400, body := .error "Not a directory" },
            [.stat (pathJoin dirname requestedPath)])) ∧
    (fs.stat (pathJoin dirname requestedPath) = .error () →
      (listDirHandler dirname fs requestedPath).1
        = { status := 500, body := .error "Internal server error" }) ∧
    (∀ st : Stats, fs.stat (pathJoin dirname requestedPath) = .ok st →
      st.isDirectory = true →
      fs.readdir (pathJoin dirname requestedPath) = .error () →
      (listDirHandler dirname fs requestedPath).1
        = { status := 500, body := .error "Internal server error" }) ∧
    (∀ (st : Stats) (names : List JSString),
      fs.stat (pathJoin dirname requestedPath) = .ok st →
      st.isDirectory = true →
      fs.readdir (pathJoin dirname requestedPath) = .ok names →
      (∃ n ∈ names, fs.stat (pathJoin (pathJoin dirname requestedPath) n) = .error ()) →
      (listDirHandler dirname fs requestedPath).1
        = { status := 500, body := .error "Internal server error" }) := by
  refine ⟨?_, ?_, ?_, ?_⟩
  · intro st hstat hdir
    simp only [listDirHandler, hin, Bool.not_true, Bool.false_eq_true, if_false, hstat,
      hdir, Bool.not_false, if_true]
  · intro hstat
    simp only [listDirHandler, hin, Bool.not_true, Bool.false_eq_true, if_false, hstat]
  · intro st hstat hdir hread
    simp only [listDirHandler, hin, Bool.not_true, Bool.false_eq_true, if_false, hstat,
      hdir, Bool.not_false, hread]
  · intro st names hstat hdir hread hex
    have herr := statEntries_error fs (pathJoin dirname requestedPath) names hex
    simp only [listDirHandler, hin, Bool.not_true, Bool.false_eq_true, if_false, hstat,
      hdir, Bool.not_false, hread, herr]

/-- C2 witness: the theorem applied to `fsDemo` (400 on the plain file
`/srv/f`, 500 on the missing `/srv/nope`) and to `fsChildErr` (500 when
a child stat rejects). -/
theorem c2_error_handling_witness :
    listDirHandler "/srv".data fsDemo "f".data
      = ({ status := 400, body := .error "Not a directory" }, [.stat "/srv/f".data]) ∧
    (listDirHandler "/srv".data fsDemo "nope".data).1
      = { status := 500, body := .error "Internal server error" } ∧
    (listDirHandler "/srv".data fsChildErr "d".data).1
      = { status := 500, body := .error "Internal server error" } :=
  ⟨(c2_error_handling "/srv".data "f".data fsDemo (by decide)).1
      { isDirectory := false, mtimeMs := 3, size := 10 } (by decide) rfl,
   (c2_error_handling "/srv".data "nope".data fsDemo (by decide)).2.1 (by decide),
   (c2_error_handling "/srv".data "d".data fsChildErr (by decide)).2.2.2
      { isDirectory := true, mtimeMs := 5, size := 4096 } [['x']]
      (by decide) rfl (by decide) ⟨['x'], by decide, by decide⟩⟩

/-! ## C10: the path guard -/

/-- C10 counterexample: with server directory `/app`, the request path
`../app-evil` joins to `/app-evil`, which is not inside `/app`; yet the
handler does not answer 403 — it stats and readdirs the outside path and
answers 200. -/
theorem c10_counterexample :
    ¬ insideDir (pathJoin "/app".data "../app-evil".data) "/app".data ∧
    (listDirHandler "/app".data fsEscape "../app-evil".data).1.status = 200 ∧
    FsCall.stat "/app-evil".data ∈ (listDirHandler "/app".data fsEscape "../app-evil".data).2 := by
  decide

/-- C10 (amended): the guard is a plain string-prefix test — whenever
the joined path does not start with the server-directory string, the
handler answers 403 `Access denied` before any filesystem call.
(Starting with the string is weaker than being inside the directory, as
the counterexample's escape via `..` to a sibling shows.) -/
theorem c10_prefix_guard (dirname requestedPath : JSString) (fs : ServerFS)
    (h : startsWith (pathJoin dirname requestedPath) dirname = false) :
    listDirHandler dirname fs requestedPath
      = ({ status := 403, body := .error "Access denied" }, []) := by
  simp only [listDirHandler, h, Bool.not_false, if_true]

/-- C10 witness: a `..` request that leaves the prefix is refused with no
filesystem calls. -/
theorem c10_prefix_guard_witness :
    listDirHandler "/app".data fsEscape "../../etc/passwd".data
      = ({ status := 403, body := .error "Access denied" }, []) :=
  c10_prefix_guard "/app".data "../../etc/passwd".data fsEscape (by decide)

/-! ## Lemmas about the tree view -/

lemma pathOf_setOpenCls (b : Bool) (t : TreeItem) : pathOf (setOpenCls b t) = pathOf t := by
  cases t <;> rfl

lemma pathOf_setChildren (cs : List TreeItem) (t : TreeItem) :
    pathOf (setChildren cs t) = pathOf t := by
  cases t <;> rfl

mutual

theorem replaceIn_spec (p : JSString) (f : TreeItem → TreeItem)
    (hf : ∀ t, pathOf (f t) = pathOf t) (t : TreeItem) :
    ((replaceTreeItemIn t p f).2 = true →
      ∃ r, findTreeItemIn t p = some r ∧
        findTreeItemIn (replaceTreeItemIn t p f).1 p = some (f r)) ∧
    ((replaceTreeItemIn t p f).2 = false →
      (replaceTreeItemIn t p f).1 = t ∧ findTreeItemIn t p = none) := by
  by_cases hp : pathOf t = p
  · constructor
    · intro _
      refine ⟨t, ?_, ?_⟩
      · unfold findTreeItemIn
        simp [hp]
      · unfold replaceTreeItemIn findTreeItemIn
        simp [hp, hf t]
    · intro hfalse
      unfold replaceTreeItemIn at hfalse
      simp [hp] at hfalse
  · cases t with
    | file q o sel =>
      simp only [pathOf] at hp
      constructor
      · intro htrue
        unfold replaceTreeItemIn at htrue
        simp [pathOf, hp] at htrue
      · intro _
        unfold replaceTreeItemIn findTreeItemIn
        simp [pathOf, hp]
    | folder q o sel cs =>
      have hspec := replaceList_spec p f hf cs
      simp only [pathOf] at hp
      constructor
      · intro htrue
        unfold replaceTreeItemIn at htrue ⊢
        simp only [pathOf, if_neg hp] at htrue ⊢
        obtain ⟨r, hr, hr2⟩ := hspec.1 htrue
        refine ⟨r, ?_, ?_⟩
        · unfold findTreeItemIn
          simp [pathOf, hp, hr]
        · unfold findTreeItemIn
          simp [pathOf, hp, hr2]
      · intro hfalse
        unfold replaceTreeItemIn at hfalse ⊢
        simp only [pathOf, if_neg hp] at hfalse ⊢
        have h2 := hspec.2 hfalse
        refine ⟨by rw [h2.1], ?_⟩
        unfold findTreeItemIn
        simp [pathOf, hp, h2.2]

theorem replaceList_spec (p : JSString) (f : TreeItem → TreeItem)
    (hf : ∀ t, pathOf (f t) = pathOf t) (ts : List TreeItem) :
    ((replaceTreeItems ts p f).2 = true →
      ∃ r, findTreeItem ts p = some r ∧
        findTreeItem (replaceTreeItems ts p f).1 p = some (f r)) ∧
    ((replaceTreeItems ts p f).2 = false →
      (replaceTreeItems ts p f).1 = ts ∧ findTreeItem ts p = none) := by
  cases ts with
  | nil =>
    unfold replaceTreeItems findTreeItem
    simp
  | cons t ts =>
    have hin := replaceIn_spec p f hf t
    have htail := replaceList_spec p f hf ts
    by_cases hhit : (replaceTreeItemIn t p f).2 = true
    · obtain ⟨r, hr, hr2⟩ := hin.1 hhit
      constructor
      · intro _
        refine ⟨r, ?_, ?_⟩
        · unfold findTreeItem
          simp [hr]
        · unfold replaceTreeItems
          simp only [hhit, if_true]
          unfold findTreeItem
          simp [hr2]
      · intro hfalse
        unfold replaceTreeItems at hfalse
        simp [hhit] at hfalse
    · rw [Bool.not_eq_true] at hhit
      have hid := hin.2 hhit
      constructor
      · intro htrue
        unfold replaceTreeItems at htrue ⊢
        simp only [hhit, Bool.false_eq_true, if_false] at htrue ⊢
        obtain ⟨r, hr, hr2⟩ := htail.1 htrue
        refine ⟨r, ?_, ?_⟩
        · unfold findTreeItem
          simp [hid.2, hr]
        · unfold findTreeItem
          simp [hid.2, hr2]
      · intro hfalse
        unfold replaceTreeItems at hfalse ⊢
        simp only [hhit, Bool.false_eq_true, if_false] at hfalse ⊢
        have htl := htail.2 hfalse
        refine ⟨by rw [htl.1], ?_⟩
        unfold findTreeItem
        simp [hid.2, htl.2]

end

lemma find_after_replace (ts : List TreeItem) (p : JSString) (f : TreeItem → TreeItem)
    (hf : ∀ t, pathOf (f t) = pathOf t) (t : TreeItem)
    (h : findTreeItem ts p = some t) :
    findTreeItem (replaceTreeItems ts p f).1 p = some (f t) := by
  have hspec := replaceList_spec p f hf ts
  cases hhit : (replaceTreeItems ts p f).2 with
  | false =>
    have hnone := (hspec.2 hhit).2
    rw [hnone] at h
    cases h
  | true =>
    obtain ⟨r, hr, hr2⟩ := hspec.1 hhit
    rw [hr] at h
    cases h
    exact hr2


mutual

theorem find_path_list (ts : List TreeItem) (p : JSString) (t : TreeItem)
    (h : findTreeItem ts p = some t) : pathOf t = p := by
  cases ts with
  | nil => cases h
  | cons u us =>
    unfold findTreeItem at h
    cases hu : findTreeItemIn u p with
    | some r =>
      rw [hu] at h
      cases h
      exact find_path_in u p t hu
    | none =>
      rw [hu] at h
      exact find_path_list us p t h

theorem find_path_in (u : TreeItem) (p : JSString) (t : TreeItem)
    (h : findTreeItemIn u p = some t) : pathOf t = p := by
  unfold findTreeItemIn at h
  by_cases hp : pathOf u = p
  · rw [if_pos hp] at h
    cases h
    exact hp
  · rw [if_neg hp] at h
    cases u with
    | file q o sel => cases h
    | folder q o sel cs => exact find_path_list cs p t h

end

lemma toggle_state_fields (ctx : Ctx) (st : ExplorerState) (path : JSString) (force : Option Bool) :
    (toggleFolderExpansion ctx st path force).1.currentPath = st.currentPath ∧
    (toggleFolderExpansion ctx st path force).1.expandedFolders =
      (if path = rootPath then st.expandedFolders
       else if force.getD (!st.expandedFolders.contains path) = true
         then setAdd st.expandedFolders path
         else (removeExpandedFolder st path).expandedFolders) ∧
    (toggleFolderExpansion ctx st path force).1.listView.length = st.listView.length := by
  unfold toggleFolderExpansion
  by_cases hroot : path = rootPath
  · simp [hroot]
  · simp only [hroot, if_false]
    by_cases hSE : force.getD (!st.expandedFolders.contains path) = true
    · simp only [hSE, if_true]
      split <;> (try split) <;>
        (try split) <;> (try split) <;>
        simp [updateListViewExpansion, removeExpandedFolder]
    · rw [Bool.not_eq_true] at hSE
      simp only [hSE, Bool.false_eq_true, if_false]
      split <;> (try split) <;>
        (try split) <;> (try split) <;>
        simp [updateListViewExpansion, removeExpandedFolder]


/-- C5: for a non-root path, `toggleFolderExpansion` issues a fetch of
that folder's contents iff it is expanding (`shouldExpand` is true) and
the folder's tree child container exists and is empty; at most that one
fetch happens; and when collapsing no fetch happens and the child
container (when the found node has one) is emptied. -/
theorem c5_lazy_fetch (ctx : Ctx) (st : ExplorerState) (path : JSString) (force : Option Bool)
    (hroot : path ≠ rootPath) :
    ((toggleFolderExpansion ctx st path force).2 = [path] ↔
      force.getD (!st.expandedFolders.contains path) = true ∧
      isEmptyFolderNode (findTreeItem st.treeView path) = true) ∧
    ((toggleFolderExpansion ctx st path force).2 = [] ∨
      (toggleFolderExpansion ctx st path force).2 = [path]) ∧
    (force.getD (!st.expandedFolders.contains path) = false →
      (toggleFolderExpansion ctx st path force).2 = [] ∧
      (isFolderNode (findTreeItem st.treeView path) = true →
        isEmptyFolderNode (findTreeItem (toggleFolderExpansion ctx st path force).1.treeView path)
          = true)) := by
  unfold toggleFolderExpansion
  rw [if_neg hroot]
  by_cases hSE : force.getD (!st.expandedFolders.contains path) = true
  · simp only [hSE, if_true]
    cases hfind : findTreeItem st.treeView path with
    | none => simp [hfind, isEmptyFolderNode]
    | some t =>
      cases t with
      | file q o sel => simp [hfind, isEmptyFolderNode]
      | folder q o sel cs =>
        cases cs with
        | nil => simp [hfind, isEmptyFolderNode]
        | cons c cs2 => simp [hfind, isEmptyFolderNode]
  · rw [Bool.not_eq_true] at hSE
    simp only [hSE, Bool.false_eq_true, if_false]
    cases hfind : findTreeItem st.treeView path with
    | none => simp [removeExpandedFolder, hfind, isEmptyFolderNode, isFolderNode]
    | some t =>
      cases t with
      | file q o sel => simp [removeExpandedFolder, hfind, isEmptyFolderNode, isFolderNode]
      | folder q o sel cs =>
        have hafter := find_after_replace st.treeView path
          (fun u => setChildren [] (setOpenCls false u))
          (fun u => by rw [pathOf_setChildren, pathOf_setOpenCls]) _ hfind
        have hafter2 : findTreeItem
            (replaceTreeItems st.treeView path (fun u => setChildren [] (setOpenCls false u))).1
            path = some (.folder q false sel []) := by
          simpa [setChildren, setOpenCls] using hafter
        simp [removeExpandedFolder, hfind, isEmptyFolderNode, isFolderNode,
          updateListViewExpansion, hafter2]


/-- C5 witness: expanding the unloaded folder `/a` of `stOneFolder`
fetches exactly `/a`. -/
theorem c5_lazy_fetch_witness :
    (toggleFolderExpansion ctxEmpty stOneFolder "/a".data none).2 = ["/a".data] :=
  ((c5_lazy_fetch ctxEmpty stOneFolder "/a".data none (by decide)).1).mpr ⟨rfl, by rfl⟩

/-! ## Lemmas for C7 and C9: the expansion chain and the root invariant -/

lemma joinSlash_concat (xs : List JSString) (y : JSString) (h : xs ≠ []) :
    joinSlash (xs ++ [y]) = joinSlash xs ++ '/' :: y := by
  induction xs with
  | nil => exact absurd rfl h
  | cons x xs ih =>
    cases xs with
    | nil => simp [joinSlash]
    | cons x2 xs2 =>
      have hx : joinSlash ((x :: x2 :: xs2) ++ [y]) = x ++ '/' :: joinSlash ((x2 :: xs2) ++ [y]) := by
        simp [joinSlash]
      rw [hx, ih (by simp)]
      simp [joinSlash]

lemma buildPath_ne_nil (name parent : JSString) : buildPath name parent ≠ [] := by
  unfold buildPath
  split
  · simp
  · simp

lemma buildPath_ne_root (name parent : JSString) (h : name ≠ []) :
    buildPath name parent ≠ rootPath := by
  intro e
  unfold buildPath at e
  by_cases hp : parent = rootPath
  · rw [if_pos hp] at e
    have hn : name = [] := by simpa [rootPath] using congrArg List.tail e
    exact h hn
  · rw [if_neg hp] at e
    cases parent with
    | nil =>
      simp [rootPath] at e
      exact h e
    | cons c cs =>
      have hlen := congrArg List.length e
      simp [rootPath] at hlen

lemma dirOf_nonempty (xs : List JSString) (h : xs ≠ []) : dirOf xs = '/' :: joinSlash xs := by
  cases xs with
  | nil => exact absurd rfl h
  | cons a as => rfl

lemma buildPath_dirOf (part : JSString) (pre : List JSString)
    (hpre : ∀ s ∈ pre, s ≠ []) :
    buildPath part (dirOf pre) = dirOf (pre ++ [part]) := by
  cases pre with
  | nil => simp [dirOf, buildPath, rootPath, joinSlash]
  | cons a as =>
    have hj : joinSlash (a :: as) ≠ [] :=
      joinSlash_ne_nil (a :: as) (by simp) hpre
    have hd : dirOf (a :: as) = '/' :: joinSlash (a :: as) := rfl
    have hnr : ('/' : Char) :: joinSlash (a :: as) ≠ rootPath := by
      intro e
      exact hj (by simpa [rootPath] using congrArg List.tail e)
    rw [hd]
    unfold buildPath
    rw [if_neg hnr]
    have : dirOf ((a :: as) ++ [part]) = '/' :: joinSlash ((a :: as) ++ [part]) := by
      rw [dirOf_nonempty _ (by simp)]
    rw [this, joinSlash_concat _ _ (by simp)]
    simp

lemma splitSlash_joinSlash (segs : List JSString) (hne : segs ≠ [])
    (hs : ∀ s ∈ segs, '/' ∉ s) : splitSlash (joinSlash segs) = segs := by
  induction segs with
  | nil => exact absurd rfl hne
  | cons s ss ih =>
    cases ss with
    | nil =>
      simp [joinSlash, splitSlash_of_no_slash s (hs s (List.mem_cons_self s []))]
    | cons s2 ss2 =>
      have hj : joinSlash (s :: s2 :: ss2) = s ++ '/' :: joinSlash (s2 :: ss2) := by
        simp [joinSlash]
      rw [hj, splitSlash_append_slash s _ (hs s (List.mem_cons_self s _)),
        ih (by simp) (fun x hx => hs x (List.mem_cons_of_mem s hx))]



lemma mem_setAdd (s : List JSString) (x q : JSString) :
    q ∈ setAdd s x ↔ q ∈ s ∨ q = x := by
  unfold setAdd
  by_cases hc : s.contains x = true
  · have hx : x ∈ s := by simpa using hc
    simp only [hc, if_true]
    constructor
    · exact Or.inl
    · rintro (h | rfl)
      · exact h
      · exact hx
  · simp only [hc, if_false]
    simp

lemma toggle_expandedFolders_force_true (ctx : Ctx) (st : ExplorerState) (path : JSString) :
    (toggleFolderExpansion ctx st path (some true)).1.expandedFolders =
      if path = rootPath then st.expandedFolders else setAdd st.expandedFolders path := by
  have h := (toggle_state_fields ctx st path (some true)).2.1
  simpa using h

lemma toggle_mem_preserved (ctx : Ctx) (st : ExplorerState) (path : JSString)
    (q : JSString) (h : q ∈ st.expandedFolders) :
    q ∈ (toggleFolderExpansion ctx st path (some true)).1.expandedFolders := by
  rw [toggle_expandedFolders_force_true]
  split
  · exact h
  · exact (mem_setAdd _ _ _).mpr (Or.inl h)

lemma toggle_mem_self (ctx : Ctx) (st : ExplorerState) (path : JSString)
    (hroot : path ≠ rootPath) :
    path ∈ (toggleFolderExpansion ctx st path (some true)).1.expandedFolders := by
  rw [toggle_expandedFolders_force_true, if_neg hroot]
  exact (mem_setAdd _ _ _).mpr (Or.inr rfl)

lemma aux_mem_preserved (ctx : Ctx) (parts : List JSString) :
    ∀ (st : ExplorerState) (cur q : JSString), q ∈ st.expandedFolders →
      q ∈ (expandTreeToPathAux ctx st parts cur).1.expandedFolders := by
  induction parts with
  | nil => intro st cur q h; exact h
  | cons part rest ih =>
    intro st cur q h
    unfold expandTreeToPathAux
    exact ih _ _ q (toggle_mem_preserved ctx st (buildPath part cur) q h)

lemma aux_currentPath (ctx : Ctx) (parts : List JSString) :
    ∀ (st : ExplorerState) (cur : JSString),
      (expandTreeToPathAux ctx st parts cur).1.currentPath = st.currentPath := by
  induction parts with
  | nil => intro st cur; rfl
  | cons part rest ih =>
    intro st cur
    unfold expandTreeToPathAux
    rw [ih]
    exact (toggle_state_fields ctx st (buildPath part cur) (some true)).1

lemma aux_adds_take (ctx : Ctx) :
    ∀ (segs : List JSString) (st : ExplorerState) (pre : List JSString),
      (∀ s ∈ segs, s ≠ []) → (∀ s ∈ pre, s ≠ []) →
      ∀ k, 1 ≤ k → k ≤ segs.length →
        dirOf (pre ++ segs.take k)
          ∈ (expandTreeToPathAux ctx st segs (dirOf pre)).1.expandedFolders := by
  intro segs
  induction segs with
  | nil =>
    intro st pre _ _ k h1 h2
    simp at h2
    omega
  | cons s rest ih =>
    intro st pre hsegs hpre k h1 h2
    unfold expandTreeToPathAux
    rw [buildPath_dirOf s pre hpre]
    rcases eq_or_lt_of_le h1 with rfl | hk
    · -- k = 1 : the freshly toggled path
      have hmem : dirOf (pre ++ [s])
          ∈ (toggleFolderExpansion ctx st (dirOf (pre ++ [s])) (some true)).1.expandedFolders := by
        apply toggle_mem_self
        rw [dirOf_nonempty _ (by simp)]
        intro e
        have hj : joinSlash (pre ++ [s]) ≠ [] :=
          joinSlash_ne_nil _ (by simp)
            (by
              intro x hx
              rcases List.mem_append.mp hx with h | h
              · exact hpre x h
              · simp at h; subst h; exact hsegs _ (List.mem_cons_self _ _))
        exact hj (by simpa [rootPath] using congrArg List.tail e)
      simpa using aux_mem_preserved ctx rest _ _ _ hmem
    · -- k ≥ 2 : recurse with pre ++ [s]
      obtain ⟨k2, rfl⟩ : ∃ k2, k = k2 + 1 := ⟨k - 1, by omega⟩
      have htake : pre ++ (s :: rest).take (k2 + 1) = (pre ++ [s]) ++ rest.take k2 := by
        simp [List.take_succ_cons]
      rw [htake]
      apply ih _ (pre ++ [s])
        (fun x hx => hsegs x (List.mem_cons_of_mem s hx))
        (by
          intro x hx
          rcases List.mem_append.mp hx with h | h
          · exact hpre x h
          · simp at h; subst h; exact hsegs _ (List.mem_cons_self _ _))
        k2 (by omega) (by simpa using h2)


lemma updateSelection_expandedFolders (st : ExplorerState) (p : JSString) :
    (updateSelection st p).expandedFolders = st.expandedFolders := rfl

lemma updateSelection_currentPath (st : ExplorerState) (p : JSString) :
    (updateSelection st p).currentPath = st.currentPath := rfl

/-- C7: selecting a folder from the list view synchronizes the tree:
for a canonical non-root path different from the current path, after
`handleFolderSelect(state, p, 'list')` the current path is `p` and every
non-empty `'/'`-prefixed ancestor of `p`, `p` itself included, is in the
expanded set. -/
theorem c7_handleFolderSelect_sync (ctx : Ctx) (st : ExplorerState) (segs : List JSString)
    (hne : segs ≠ []) (hsegs : ∀ s ∈ segs, s ≠ [] ∧ '/' ∉ s)
    (hdiff : st.currentPath ≠ '/' :: joinSlash segs) :
    (handleFolderSelect ctx st ('/' :: joinSlash segs) Source.list).1.currentPath
        = '/' :: joinSlash segs ∧
    (∀ q ∈ ancestorsOf segs,
      q ∈ (handleFolderSelect ctx st ('/' :: joinSlash segs) Source.list).1.expandedFolders) ∧
    ('/' :: joinSlash segs)
      ∈ (handleFolderSelect ctx st ('/' :: joinSlash segs) Source.list).1.expandedFolders := by
  have hsegs1 : ∀ s ∈ segs, s ≠ [] := fun s hs => (hsegs s hs).1
  have hsplit : (splitSlash ('/' :: joinSlash segs)).filter (fun s => !s.isEmpty) = segs := by
    have h1 : splitSlash ('/' :: joinSlash segs) = [] :: segs := by
      have hj := splitSlash_joinSlash segs hne (fun s hs => (hsegs s hs).2)
      simp [splitSlash, hj]
    rw [h1]
    have h2 := filter_nonempty_eq_self segs hsegs1
    simp only [List.filter]
    simpa using h2
  have hmain : ∀ q ∈ ancestorsOf segs,
      q ∈ (handleFolderSelect ctx st ('/' :: joinSlash segs) Source.list).1.expandedFolders := by
    intro q hq
    simp only [ancestorsOf, List.mem_map, List.mem_range] at hq
    obtain ⟨i, hi, rfl⟩ := hq
    unfold handleFolderSelect
    simp only [hdiff, updateSelection_expandedFolders]
    simp only [reduceCtorEq, false_or, not_false_eq_true, if_true, or_false, if_false]
    unfold expandTreeToPath
    rw [hsplit]
    have htk := aux_adds_take ctx segs
      (updateListView ctx { st with currentPath := '/' :: joinSlash segs }
        (ctx.fetchData ('/' :: joinSlash segs))) [] hsegs1 (by simp) (i + 1)
      (by omega) (by omega)
    have hdir : dirOf ([] ++ segs.take (i + 1)) = '/' :: joinSlash (segs.take (i + 1)) := by
      rw [List.nil_append]
      apply dirOf_nonempty
      intro e
      rw [List.take_eq_nil_iff] at e
      rcases e with e | e
      · exact absurd e (by omega)
      · exact hne e
    rw [hdir] at htk
    exact htk
  refine ⟨?_, hmain, ?_⟩
  · unfold handleFolderSelect
    simp only [hdiff, updateSelection_currentPath]
    simp only [reduceCtorEq, false_or, not_false_eq_true, if_true, or_false, if_false]
    unfold expandTreeToPath
    rw [aux_currentPath]
    rfl
  · apply hmain
    have hlen : segs.length ≠ 0 := fun e => hne (List.length_eq_zero.mp e)
    simp only [ancestorsOf, List.mem_map, List.mem_range]
    refine ⟨segs.length - 1, by omega, ?_⟩
    have h1 : segs.length - 1 + 1 = segs.length := by omega
    rw [h1, List.take_length]



/-- C7 witness: selecting `/a/b` from the list at the initial state sets
the current path and expands `/a` and `/a/b`. -/
theorem c7_handleFolderSelect_sync_witness :
    (handleFolderSelect ctxEmpty createInitialState "/a/b".data Source.list).1.currentPath
        = "/a/b".data ∧
    "/a".data ∈ (handleFolderSelect ctxEmpty createInitialState "/a/b".data
        Source.list).1.expandedFolders ∧
    "/a/b".data ∈ (handleFolderSelect ctxEmpty createInitialState "/a/b".data
        Source.list).1.expandedFolders := by
  have h := c7_handleFolderSelect_sync ctxEmpty createInitialState [['a'], ['b']]
    (by decide) (by decide) (by decide)
  exact ⟨h.1, h.2.1 ['/', 'a'] (by decide), h.2.2⟩

lemma getParentPath_ne_nil (q : JSString) : getParentPath q ≠ [] := by
  unfold getParentPath
  split
  · simp [rootPath]
  · dsimp only
    split
    · simp [rootPath]
    · simp

lemma startsWith_root_false (path : JSString) (h : path ≠ []) :
    startsWith rootPath (path ++ ['/']) = false := by
  cases path with
  | nil => exact absurd rfl h
  | cons c cs =>
    show startsWith ['/'] ((c :: cs) ++ ['/']) = false
    rw [List.cons_append]
    unfold startsWith
    cases hcs : cs ++ ['/'] with
    | nil => exact absurd hcs (by simp)
    | cons d ds => simp [startsWith]

lemma root_mem_removeExpandedFolder (st : ExplorerState) (path : JSString)
    (hne : path ≠ []) (hroot : path ≠ rootPath) (h : rootPath ∈ st.expandedFolders) :
    rootPath ∈ (removeExpandedFolder st path).expandedFolders := by
  unfold removeExpandedFolder
  simp only [List.mem_filter]
  refine ⟨h, ?_⟩
  simp [startsWith_root_false path hne, Ne.symm hroot]

lemma toggle_keeps_root (ctx : Ctx) (st : ExplorerState) (path : JSString) (force : Option Bool)
    (hne : path ≠ []) (h : rootPath ∈ st.expandedFolders) :
    rootPath ∈ (toggleFolderExpansion ctx st path force).1.expandedFolders := by
  rw [(toggle_state_fields ctx st path force).2.1]
  split
  · exact h
  next hroot =>
    split
    · exact (mem_setAdd _ _ _).mpr (Or.inl h)
    · exact root_mem_removeExpandedFolder st path hne hroot h

lemma aux_keeps_root (ctx : Ctx) (parts : List JSString) :
    ∀ (st : ExplorerState) (cur : JSString), rootPath ∈ st.expandedFolders →
      rootPath ∈ (expandTreeToPathAux ctx st parts cur).1.expandedFolders := by
  induction parts with
  | nil => intro st cur h; exact h
  | cons part rest ih =>
    intro st cur h
    unfold expandTreeToPathAux
    exact ih _ _ (toggle_keeps_root ctx st (buildPath part cur) (some true)
      (buildPath_ne_nil part cur) h)

lemma handleFolderSelect_keeps_root (ctx : Ctx) (st : ExplorerState) (path : JSString)
    (source : Source) (hne : path ≠ []) (h : rootPath ∈ st.expandedFolders) :
    rootPath ∈ (handleFolderSelect ctx st path source).1.expandedFolders := by
  unfold handleFolderSelect expandTreeToPath
  dsimp only
  cases source with
  | tree =>
    have hc1 : (Source.tree = Source.tree ∨ ¬ st.currentPath = path) := Or.inl rfl
    have hc2 : ¬ (Source.tree = Source.list) := by simp
    have hc3 : (Source.tree = Source.tree ∨ st.currentPath = path) := Or.inl rfl
    rw [if_pos hc1, if_neg hc2, if_pos hc3]
    exact toggle_keeps_root ctx _ path none hne h
  | list =>
    have hc2 : (Source.list = Source.list) := rfl
    by_cases hsame : st.currentPath = path
    · have hc1 : ¬ (Source.list = Source.tree ∨ ¬ st.currentPath = path) := by simp [hsame]
      have hc3 : (Source.list = Source.tree ∨ st.currentPath = path) := Or.inr hsame
      rw [if_neg hc1, if_pos hc2, if_pos hc3]
      exact toggle_keeps_root ctx _ path none hne (aux_keeps_root ctx _ _ _ h)
    · have hc1 : (Source.list = Source.tree ∨ ¬ st.currentPath = path) := Or.inr hsame
      have hc3 : ¬ (Source.list = Source.tree ∨ st.currentPath = path) := by simp [hsame]
      rw [if_pos hc1, if_pos hc2, if_neg hc3]
      exact aux_keeps_root ctx _ _ _ h

lemma uipath_ne_nil (path : JSString) (h : UIPath path) : path ≠ [] := by
  rcases h with rfl | ⟨n, pp, rfl⟩ | ⟨q, rfl⟩
  · simp [rootPath]
  · exact buildPath_ne_nil n pp
  · exact getParentPath_ne_nil q

/-- C9: the root is permanently expanded — `'/'` is expanded in the
initial state, toggling `'/'` is a complete no-op (state unchanged,
nothing fetched), and `'/'` stays in the expanded set in every state
reachable through the public operations. -/
theorem c9_root_always_expanded (ctx : Ctx) :
    rootPath ∈ createInitialState.expandedFolders ∧
    (∀ (st : ExplorerState) (force : Option Bool),
      toggleFolderExpansion ctx st rootPath force = (st, [])) ∧
    ∀ st, Reachable ctx st → rootPath ∈ st.expandedFolders := by
  refine ⟨by simp [createInitialState], ?_, ?_⟩
  · intro st force
    unfold toggleFolderExpansion
    simp
  · intro st h
    induction h with
    | initial => simp [createInitialState]
    | do_init st2 h ih => exact ih
    | select st2 path source h hpath ih =>
      exact handleFolderSelect_keeps_root ctx st2 path source (uipath_ne_nil path hpath) ih
    | toggle st2 name parent force h ih =>
      exact toggle_keeps_root ctx st2 _ force (buildPath_ne_nil name parent) ih

/-- C9 witness: the no-op applied at a concrete state, and the invariant
read off at the initial state. -/
theorem c9_root_always_expanded_witness :
    toggleFolderExpansion ctxEmpty stOneFolder rootPath none = (stOneFolder, []) ∧
    rootPath ∈ createInitialState.expandedFolders :=
  ⟨(c9_root_always_expanded ctxEmpty).2.1 stOneFolder none,
   (c9_root_always_expanded ctxEmpty).2.2 createInitialState Reachable.initial⟩


end FileExplorer
